import Mathlib

/-!
Verification development for the knative-kafka control-plane core.

The first part embeds the Azure EventHub namespace capacity cache
(components/common/pkg/kafka/admin/eventhubcache/cache.go): the
`Namespace` entity, the two cache mappings, and the operations
`Update`, `AddEventHub`, `RemoveEventHub`, `GetNamespace` and
`GetNamespaceWithMaxCapacity`.

The second part embeds the dispatcher-side KafkaChannel reconciler
(components/dispatcher/internal/controller/kafkachannel.go):
`Subscription` construction, `reconcile`, `createSubscribableStatus`,
`updateStatus` and the top-level `Reconcile` key handling.

Go maps are modelled as association lists with unique keys (the
well-formedness predicate `Cache.wf`); Go `int` is modelled as `Int`;
Go pointers to `Namespace` objects held in the cache are identified by
the namespace name, which is the key under which the object is stored
in the namespace map.
-/

namespace KnativeKafka

/-- One Azure EventHub Namespace record of the cache: the name and the
current EventHub (topic) count.  The connection credentials carried by
the Go struct play no role in any cache operation and are omitted. -/
structure Namespace where
  name : String
  count : Int
deriving DecidableEq, Repr

/-- Modelled from the spec: constants.MaxEventHubsPerNamespace, the fixed
maximum number of EventHubs (topics) a namespace may host.  The constants
package is not part of the sources; the value 10 matches the worked
example of the spec (namespaces with max=10). -/
def maxEventHubsPerNamespace : Int := 10

/-- The EventHub cache state: the namespace-name-to-Namespace map and the
EventHub-name-to-owning-namespace map.  In Go the second map holds
pointers to the very objects stored in the first map; here the pointer is
represented by the namespace name. -/
structure Cache where
  namespaceMap : List (String × Namespace)
  eventhubMap : List (String × String)
deriving DecidableEq, Repr

/-- Association-list lookup of a namespace by name (Go map indexing into
namespaceMap). -/
def lookupNs (n : String) : List (String × Namespace) → Option Namespace
  | [] => none
  | (k, ns) :: rest => if k = n then some ns else lookupNs n rest

/-- Association-list lookup of an owning namespace name by EventHub name
(Go map indexing into eventhubMap). -/
def lookupHub (h : String) : List (String × String) → Option String
  | [] => none
  | (k, n) :: rest => if k = h then some n else lookupHub h rest

/-- Go map assignment eventhubMap[h] = n: the entry for h is replaced. -/
def insertHub (h n : String) (m : List (String × String)) : List (String × String) :=
  (h, n) :: m.filter (fun p => p.1 ≠ h)

/-- Go map assignment namespaceMap[k] = ns: the entry for k is replaced. -/
def insertNs (k : String) (ns : Namespace) (m : List (String × Namespace)) : List (String × Namespace) :=
  (k, ns) :: m.filter (fun p => p.1 ≠ k)

/-- Mutation of the Count field of the Namespace object named n through a
pointer: the first (and, under well-formedness, only) entry with key n has
its count changed by d. -/
def bumpCount (n : String) (d : Int) : List (String × Namespace) → List (String × Namespace)
  | [] => []
  | (k, ns) :: rest =>
    if k = n then (k, { ns with count := ns.count + d }) :: rest
    else (k, ns) :: bumpCount n d rest

/-- Cache.GetNamespace: pure lookup of the owning namespace of an
EventHub. -/
def Cache.getNamespace (c : Cache) (eventhub : String) : Option Namespace :=
  match lookupHub eventhub c.eventhubMap with
  | none => none
  | some n => lookupNs n c.namespaceMap

/-- Cache.AddEventHub: when the namespace pointer is non-nil (`some n`,
a pointer to the cache object named n) and the count is below the
maximum, increment the count and record the EventHub as owned by that
namespace; otherwise do nothing. -/
def Cache.addEventHub (c : Cache) (eventhub : String) (ns : Option String) : Cache :=
  match ns with
  | none => c
  | some n =>
    match lookupNs n c.namespaceMap with
    | none => c
    | some nsObj =>
      if nsObj.count < maxEventHubsPerNamespace then
        { namespaceMap := bumpCount n 1 c.namespaceMap,
          eventhubMap := insertHub eventhub n c.eventhubMap }
      else c

/-- Cache.RemoveEventHub: look up the owning namespace, decrement its
count when it was found and positive, and delete the EventHub entry
unconditionally. -/
def Cache.removeEventHub (c : Cache) (eventhub : String) : Cache :=
  let nm :=
    match lookupHub eventhub c.eventhubMap with
    | none => c.namespaceMap
    | some n =>
      match lookupNs n c.namespaceMap with
      | none => c.namespaceMap
      | some nsObj =>
        if nsObj.count > 0 then bumpCount n (-1) c.namespaceMap else c.namespaceMap
  { namespaceMap := nm,
    eventhubMap := c.eventhubMap.filter (fun p => p.1 ≠ eventhub) }

/-- The loop body of Cache.GetNamespaceWithMaxCapacity: iterate over the
namespaces carrying the best candidate found so far; a namespace below
maximum capacity initialises the candidate; once a candidate is held, the
loop breaks as soon as the candidate has count zero, and otherwise
replaces the candidate by any namespace with a strictly smaller count. -/
def maxCapacityLoop : List Namespace → Option Namespace → Option Namespace
  | [], best => best
  | ns :: rest, none =>
    if ns.count < maxEventHubsPerNamespace then maxCapacityLoop rest (some ns)
    else maxCapacityLoop rest none
  | ns :: rest, some b =>
    if b.count = 0 then some b
    else if ns.count < b.count then maxCapacityLoop rest (some ns)
    else maxCapacityLoop rest (some b)

/-- Cache.GetNamespaceWithMaxCapacity: run the selection loop over the
namespaces of the cache (the association list order standing for the Go
map iteration order, which is arbitrary). -/
def Cache.getNamespaceWithMaxCapacity (c : Cache) : Option Namespace :=
  maxCapacityLoop (c.namespaceMap.map Prod.snd) none

/-- A Kafka Secret as consumed by the cache Update: the secret name and
the four data fields the cache validates. -/
structure Secret where
  secretName : String
  brokers : String
  username : String
  password : String
  nsName : String
deriving DecidableEq, Repr

/-- Cache.validateKafkaSecret: all four data fields must be non-empty. -/
def validateKafkaSecret (s : Secret) : Bool :=
  s.brokers.length > 0 && s.username.length > 0 && s.password.length > 0 && s.nsName.length > 0

/-- Modelled from the spec: NewNamespaceFromKafkaSecret (namespace.go is
not among the sources) constructs a fresh Namespace for the record, the
count seeded from the live topic list, hence starting at zero before the
EventHub loop increments it. -/
def newNamespaceFromKafkaSecret (s : Secret) : Namespace :=
  { name := s.nsName, count := 0 }

/-- Record one listed EventHub of a namespace during Update: map the
EventHub to the namespace and increment the namespace count through the
shared pointer. -/
def updateAddHub (n : String) (c : Cache) (hub : String) : Cache :=
  { namespaceMap := bumpCount n 1 c.namespaceMap,
    eventhubMap := insertHub hub n c.eventhubMap }

/-- The secret loop of Cache.Update, mutating the cache in place as the Go
code does: validate the secret (abort with the error on failure), insert
the fresh namespace, list its EventHubs (abort with the error on failure)
and record them.  The listing collaborator (HubManager.List per namespace)
is a parameter.  The returned pair is the Go (error, receiver state) after
the call. -/
def updateLoop (listings : String → Except String (List String)) :
    List Secret → Cache → Option String × Cache
  | [], c => (none, c)
  | s :: rest, c =>
    if validateKafkaSecret s then
      let ns := newNamespaceFromKafkaSecret s
      let c1 : Cache := { c with namespaceMap := insertNs ns.name ns c.namespaceMap }
      match listings ns.name with
      | Except.error e => (some e, c1)
      | Except.ok hubs => updateLoop listings rest (hubs.foldl (updateAddHub ns.name) c1)
    else (some "invalid Kafka Secret found", c)

/-- Cache.Update: fetch the Kafka Secrets (the fetch outcome is a
parameter, Except modelling the GetKafkaSecrets error) and run the secret
loop over them. -/
def Cache.update (fetch : Except String (List Secret))
    (listings : String → Except String (List String)) (c : Cache) :
    Option String × Cache :=
  match fetch with
  | Except.error e => (some e, c)
  | Except.ok secrets => updateLoop listings secrets c

/-- Keys of both cache maps are unique, as they are for Go maps. -/
def Cache.wf (c : Cache) : Prop :=
  (c.namespaceMap.map Prod.fst).Nodup ∧ (c.eventhubMap.map Prod.fst).Nodup

instance (c : Cache) : Decidable c.wf := by
  unfold Cache.wf; infer_instance

/-- The cache consistency invariant of the spec: every EventHub entry
points at a namespace present in the namespace map, and every namespace
count equals the number of EventHub entries pointing at it. -/
def Cache.invariant (c : Cache) : Prop :=
  (∀ p ∈ c.eventhubMap, (lookupNs p.2 c.namespaceMap).isSome) ∧
  (∀ p ∈ c.namespaceMap,
    p.2.count = ((c.eventhubMap.filter (fun q => q.2 = p.1)).length : Int))

instance (c : Cache) : Decidable c.invariant := by
  unfold Cache.invariant; infer_instance

/-- One mutation of the cache: AddEventHub with an EventHub name and a
namespace pointer (none for nil), or RemoveEventHub with an EventHub
name. -/
inductive CacheOp where
  | add (eventhub : String) (ns : Option String)
  | remove (eventhub : String)
deriving DecidableEq, Repr

/-- Apply one cache operation. -/
def applyOp (c : Cache) : CacheOp → Cache
  | CacheOp.add hub ns => c.addEventHub hub ns
  | CacheOp.remove hub => c.removeEventHub hub

/-- Apply a sequence of cache operations left to right. -/
def applyOps (c : Cache) : List CacheOp → Cache
  | [] => c
  | op :: rest => applyOps (applyOp c op) rest

/-- Every namespace count of the cache lies between zero and the maximum
capacity. -/
def Cache.countsInRange (c : Cache) : Prop :=
  ∀ p ∈ c.namespaceMap, 0 ≤ p.2.count ∧ p.2.count ≤ maxEventHubsPerNamespace

instance (c : Cache) : Decidable c.countsInRange := by
  unfold Cache.countsInRange; infer_instance

/-- Every AddEventHub of the operation sequence is for an EventHub not
mapped at the moment of the call (the freshness side condition under which
the incremental count maintenance is correct). -/
def freshAddsB (c : Cache) : List CacheOp → Bool
  | [] => true
  | op :: rest =>
    (match op with
     | CacheOp.add hub _ => (lookupHub hub c.eventhubMap).isNone
     | CacheOp.remove _ => true) && freshAddsB (applyOp c op) rest

/-! Dispatcher-side KafkaChannel reconciler model -/

/-- A Subscription as built by the reconciler: the subscriber's
destination URI and the consumer group id.  Used as a Go map key, which
compares structurally over both fields. -/
structure Subscription where
  uri : String
  groupId : String
deriving DecidableEq, Repr

/-- Building the Subscription of a subscriber: the group id has the
format kafka.<uid> and the URI is the subscriber's destination URI. -/
def mkSubscription (uid uri : String) : Subscription :=
  { uri := uri, groupId := "kafka." ++ uid }

/-- A declared subscriber of the channel resource: unique identifier,
destination URI and generation number. -/
structure Subscriber where
  uid : String
  subscriberURI : String
  generation : Int
deriving DecidableEq, Repr

/-- One per-subscriber status entry of the published status. -/
structure SubscriberStatus where
  uid : String
  observedGeneration : Int
  ready : Bool
  message : String
deriving DecidableEq, Repr

/-- The subscribable status block of the channel status. -/
structure SubscribableStatus where
  subscribers : List SubscriberStatus
deriving DecidableEq, Repr

/-- Indexing the failed-subscription mapping returned by the Dispatcher
with a Subscription key (Go map lookup, structural key equality). -/
def findFailure (s : Subscription) : List (Subscription × String) → Option String
  | [] => none
  | (k, e) :: rest => if k = s then some e else findFailure s rest

/-- Reconciler.createSubscribableStatus: one status entry per declared
subscriber, ready with no message unless the subscriber's Subscription
appears in the failed-subscription mapping, in which case not ready with
the error text as the message. -/
def createSubscribableStatus (subscribers : List Subscriber)
    (failedSubscriptions : List (Subscription × String)) : SubscribableStatus :=
  { subscribers := subscribers.map (fun sub =>
      match findFailure (mkSubscription sub.uid sub.subscriberURI) failedSubscriptions with
      | none =>
        { uid := sub.uid, observedGeneration := sub.generation, ready := true, message := "" }
      | some e =>
        { uid := sub.uid, observedGeneration := sub.generation, ready := false, message := e }) }

/-- The observable outcome of one Reconciler.reconcile call. -/
structure ReconcileResult where
  err : Option String
  dispatcherCalled : Bool
  status : Option SubscribableStatus
deriving DecidableEq, Repr

/-- Reconciler.reconcile, with the Dispatcher's UpdateSubscriptions as a
parameter returning the failed-subscription mapping for a desired
Subscription list: a nil subscriber list returns success immediately with
no Dispatcher call; otherwise the desired Subscriptions are built, the
Dispatcher is invoked, the subscribable status is computed, and an error
is returned exactly when the failure mapping is non-empty. -/
def reconcile (updateSubscriptions : List Subscription → List (Subscription × String))
    (subscribers : Option (List Subscriber)) : ReconcileResult :=
  match subscribers with
  | none => { err := none, dispatcherCalled := false, status := none }
  | some subs =>
    let subscriptions := subs.map (fun s => mkSubscription s.uid s.subscriberURI)
    let failed := updateSubscriptions subscriptions
    { err := if failed.length > 0 then some "Some kafka subscriptions failed to subscribe"
             else none,
      dispatcherCalled := true,
      status := some (createSubscribableStatus subs failed) }

/-- The channel status compared and written back by updateStatus; its
deep equality is the structural equality of this type. -/
structure KafkaChannelStatus where
  subscribableStatus : SubscribableStatus
deriving DecidableEq, Repr

/-- The observable outcome of one Reconciler.updateStatus call. -/
structure UpdateStatusResult where
  err : Option String
  wroteBack : Bool
deriving DecidableEq, Repr

/-- Reconciler.updateStatus: fetch the stored channel status (the lookup
outcome is a parameter, none modelling a lister failure), return without
writing when the stored status deep-equals the desired status, and
otherwise write the desired status back (the write outcome is the
writeErr parameter). -/
def updateStatus (stored : Option KafkaChannelStatus) (writeErr : Option String)
    (desired : KafkaChannelStatus) : UpdateStatusResult :=
  match stored with
  | none => { err := some "lister error", wroteBack := false }
  | some st =>
    if st = desired then { err := none, wroteBack := false }
    else { err := writeErr, wroteBack := true }

/-- Modelled from the vendored k8s client-go dependency: strings.Split on
the single-character separator, as used by cache.SplitMetaNamespaceKey. -/
def splitSlash : List Char → List (List Char)
  | [] => [[]]
  | c :: rest =>
    let r := splitSlash rest
    if c = '/' then [] :: r
    else
      match r with
      | [] => [[c]]
      | p :: ps => (c :: p) :: ps

/-- Modelled from the vendored k8s client-go dependency:
cache.SplitMetaNamespaceKey returns an empty namespace and the whole key
when it holds no slash, the two parts around a single slash, and an error
for any other shape. -/
def splitMetaNamespaceKey (key : String) : Except String (String × String) :=
  match splitSlash key.data with
  | [name] => Except.ok ("", String.mk name)
  | [ns, name] => Except.ok (String.mk ns, String.mk name)
  | _ => Except.error "unexpected key format"

/-- Outcome of fetching the channel resource from the lister. -/
inductive GetResult where
  | notFound
  | failed (e : String)
  | found (ready : Bool) (subscribers : Option (List Subscriber)) (status : KafkaChannelStatus)
deriving DecidableEq, Repr

/-- The observable outcome of one top-level Reconcile call. -/
structure ReconcileOutcome where
  err : Option String
  lookedUp : Bool
  dispatcherCalled : Bool
  statusWritten : Bool
deriving DecidableEq, Repr

/-- Reconciler.Reconcile: split the key, and on a malformed key log and
return nil with no resource lookup; otherwise fetch the channel resource
(the lister is a parameter), treat not-found as success, propagate other
lookup errors, silently ignore keys other than the configured channel
key, fail fast when the channel is not ready, run reconcile, and always
run updateStatus afterwards; a reconcile error itself is only logged and
evented, the returned error being the updateStatus error when one
occurs. -/
def reconcileTop (channelKey : String)
    (getChannel : String → String → GetResult)
    (updateSubscriptions : List Subscription → List (Subscription × String))
    (writeErr : Option String) (key : String) : ReconcileOutcome :=
  match splitMetaNamespaceKey key with
  | Except.error _ =>
    { err := none, lookedUp := false, dispatcherCalled := false, statusWritten := false }
  | Except.ok (ns, name) =>
    match getChannel ns name with
    | GetResult.notFound =>
      { err := none, lookedUp := true, dispatcherCalled := false, statusWritten := false }
    | GetResult.failed e =>
      { err := some e, lookedUp := true, dispatcherCalled := false, statusWritten := false }
    | GetResult.found ready subscribers status =>
      if channelKey = key then
        if ready then
          let rec1 := reconcile updateSubscriptions subscribers
          let desired :=
            match rec1.status with
            | none => status
            | some st => { subscribableStatus := st }
          let stored :=
            match getChannel ns name with
            | GetResult.found _ _ st => some st
            | _ => none
          let us := updateStatus stored writeErr desired
          { err := us.err, lookedUp := true, dispatcherCalled := rec1.dispatcherCalled,
            statusWritten := us.wroteBack }
        else
          { err := some "Channel is not ready. Cannot configure and update subscriber status",
            lookedUp := true, dispatcherCalled := false, statusWritten := false }
      else
        { err := none, lookedUp := true, dispatcherCalled := false, statusWritten := false }

/-- Full characterisation of the selection loop: starting from a candidate
that is either absent or below capacity with a non-negative count, the
loop returns none exactly when it started with no candidate and saw no
namespace below capacity, and any returned namespace comes from the input
(or is the initial candidate), is strictly below capacity, and has a count
no larger than any below-capacity namespace of the input and no larger
than the initial candidate. -/
theorem maxCapacityLoop_spec (l : List Namespace) :
    ∀ best : Option Namespace,
    (∀ ns ∈ l, 0 ≤ ns.count ∧ ns.count ≤ maxEventHubsPerNamespace) →
    (∀ b, best = some b → 0 ≤ b.count ∧ b.count < maxEventHubsPerNamespace) →
    ((maxCapacityLoop l best = none ↔
        best = none ∧ ∀ ns ∈ l, ¬ ns.count < maxEventHubsPerNamespace) ∧
     (∀ r, maxCapacityLoop l best = some r →
       (r ∈ l ∨ best = some r) ∧ 0 ≤ r.count ∧ r.count < maxEventHubsPerNamespace ∧
       (∀ ns ∈ l, ns.count < maxEventHubsPerNamespace → r.count ≤ ns.count) ∧
       (∀ b, best = some b → r.count ≤ b.count))) := by
  induction l with
  | nil =>
    intro best hrange hbest
    constructor
    · cases best with
      | none => simp [maxCapacityLoop]
      | some b => simp [maxCapacityLoop]
    · intro r hr
      cases best with
      | none => simp [maxCapacityLoop] at hr
      | some b =>
        simp only [maxCapacityLoop, Option.some.injEq] at hr
        subst hr
        exact ⟨Or.inr rfl, (hbest b rfl).1, (hbest b rfl).2,
          by intro ns h; simp at h, by intro b2 hb2; cases hb2; exact le_refl _⟩
  | cons ns rest ih =>
    intro best hrange hbest
    have hns := hrange ns (List.mem_cons_self ns rest)
    have hrest : ∀ x ∈ rest, 0 ≤ x.count ∧ x.count ≤ maxEventHubsPerNamespace :=
      fun x hx => hrange x (List.mem_cons_of_mem ns hx)
    cases best with
    | none =>
      by_cases h : ns.count < maxEventHubsPerNamespace
      · have hloop : maxCapacityLoop (ns :: rest) none = maxCapacityLoop rest (some ns) := by
          simp [maxCapacityLoop, h]
        have hbest2 : ∀ b, (some ns : Option Namespace) = some b →
            0 ≤ b.count ∧ b.count < maxEventHubsPerNamespace := by
          intro b hb; cases hb; exact ⟨hns.1, h⟩
        have spec := ih (some ns) hrest hbest2
        constructor
        · rw [hloop]
          constructor
          · intro hn
            exact absurd hn (by simp [spec.1])
          · rintro ⟨-, hall⟩
            exact absurd h (hall ns (List.mem_cons_self ns rest))
        · intro r hr
          rw [hloop] at hr
          obtain ⟨hmem, hge, hlt, hmin, hb⟩ := spec.2 r hr
          refine ⟨?_, hge, hlt, ?_, ?_⟩
          · rcases hmem with hm | hm
            · exact Or.inl (List.mem_cons_of_mem ns hm)
            · cases hm; exact Or.inl (List.mem_cons_self ns rest)
          · intro x hx hxlt
            rcases List.mem_cons.mp hx with rfl | hx2
            · exact hb x rfl
            · exact hmin x hx2 hxlt
          · intro b hb2; cases hb2
      · have hloop : maxCapacityLoop (ns :: rest) none = maxCapacityLoop rest none := by
          simp [maxCapacityLoop, h]
        have spec := ih none hrest (by intro b hb; cases hb)
        constructor
        · rw [hloop, spec.1]
          constructor
          · rintro ⟨-, hall⟩
            refine ⟨rfl, ?_⟩
            intro x hx
            rcases List.mem_cons.mp hx with rfl | hx2
            · exact h
            · exact hall x hx2
          · rintro ⟨-, hall⟩
            exact ⟨rfl, fun x hx => hall x (List.mem_cons_of_mem ns hx)⟩
        · intro r hr
          rw [hloop] at hr
          obtain ⟨hmem, hge, hlt, hmin, -⟩ := spec.2 r hr
          refine ⟨?_, hge, hlt, ?_, ?_⟩
          · rcases hmem with hm | hm
            · exact Or.inl (List.mem_cons_of_mem ns hm)
            · cases hm
          · intro x hx hxlt
            rcases List.mem_cons.mp hx with rfl | hx2
            · exact absurd hxlt h
            · exact hmin x hx2 hxlt
          · intro b hb; cases hb
    | some b =>
      have hb := hbest b rfl
      by_cases hz : b.count = 0
      · have hloop : maxCapacityLoop (ns :: rest) (some b) = some b := by
          simp [maxCapacityLoop, hz]
        constructor
        · rw [hloop]; simp
        · intro r hr
          rw [hloop] at hr
          cases hr
          refine ⟨Or.inr rfl, hb.1, hb.2, ?_, ?_⟩
          · intro x hx hxlt
            rw [hz]
            exact (hrange x hx).1
          · intro b2 hb2; cases hb2; exact le_refl _
      · by_cases h2 : ns.count < b.count
        · have hloop : maxCapacityLoop (ns :: rest) (some b) = maxCapacityLoop rest (some ns) := by
            simp [maxCapacityLoop, hz, h2]
          have hbest2 : ∀ x, (some ns : Option Namespace) = some x →
              0 ≤ x.count ∧ x.count < maxEventHubsPerNamespace := by
            intro x hx; cases hx; exact ⟨hns.1, lt_trans h2 hb.2⟩
          have spec := ih (some ns) hrest hbest2
          constructor
          · rw [hloop]
            constructor
            · intro hn
              exact absurd hn (by simp [spec.1])
            · rintro ⟨hc, -⟩; cases hc
          · intro r hr
            rw [hloop] at hr
            obtain ⟨hmem, hge, hlt, hmin, hbd⟩ := spec.2 r hr
            have hrns : r.count ≤ ns.count := hbd ns rfl
            refine ⟨?_, hge, hlt, ?_, ?_⟩
            · rcases hmem with hm | hm
              · exact Or.inl (List.mem_cons_of_mem ns hm)
              · cases hm; exact Or.inl (List.mem_cons_self ns rest)
            · intro x hx hxlt
              rcases List.mem_cons.mp hx with rfl | hx2
              · exact hrns
              · exact hmin x hx2 hxlt
            · intro b2 hb2
              cases hb2
              exact le_of_lt (lt_of_le_of_lt hrns h2)
        · have hloop : maxCapacityLoop (ns :: rest) (some b) = maxCapacityLoop rest (some b) := by
            simp [maxCapacityLoop, hz, h2]
          have spec := ih (some b) hrest hbest
          constructor
          · rw [hloop]
            constructor
            · intro hn
              exact absurd hn (by simp [spec.1])
            · rintro ⟨hc, -⟩; cases hc
          · intro r hr
            rw [hloop] at hr
            obtain ⟨hmem, hge, hlt, hmin, hbd⟩ := spec.2 r hr
            have hrb : r.count ≤ b.count := hbd b rfl
            refine ⟨?_, hge, hlt, ?_, ?_⟩
            · rcases hmem with hm | hm
              · exact Or.inl (List.mem_cons_of_mem ns hm)
              · exact Or.inr hm
            · intro x hx hxlt
              rcases List.mem_cons.mp hx with rfl | hx2
              · exact le_trans hrb (not_lt.mp h2)
              · exact hmin x hx2 hxlt
            · intro b2 hb2; cases hb2; exact hrb

/-- C2: whenever every namespace count lies between zero and the maximum
capacity, GetNamespaceWithMaxCapacity returns a namespace of the cache
that is strictly below the maximum capacity and whose count is minimal
among the namespaces strictly below capacity, and it returns none exactly
when every namespace of the cache is at capacity. -/
theorem getNamespaceWithMaxCapacity_spec (c : Cache) (h : c.countsInRange) :
    (c.getNamespaceWithMaxCapacity = none ↔
      ∀ p ∈ c.namespaceMap, p.2.count = maxEventHubsPerNamespace) ∧
    (∀ r, c.getNamespaceWithMaxCapacity = some r →
      r ∈ c.namespaceMap.map Prod.snd ∧ r.count < maxEventHubsPerNamespace ∧
      ∀ ns ∈ c.namespaceMap.map Prod.snd,
        ns.count < maxEventHubsPerNamespace → r.count ≤ ns.count) := by
  have hrange : ∀ ns ∈ c.namespaceMap.map Prod.snd,
      0 ≤ ns.count ∧ ns.count ≤ maxEventHubsPerNamespace := by
    intro ns hns
    obtain ⟨p, hp, rfl⟩ := List.mem_map.mp hns
    exact h p hp
  have spec := maxCapacityLoop_spec (c.namespaceMap.map Prod.snd) none hrange
    (by intro b hb; cases hb)
  constructor
  · rw [Cache.getNamespaceWithMaxCapacity, spec.1]
    constructor
    · rintro ⟨-, hall⟩
      intro p hp
      have hle := (h p hp).2
      have hnl := hall p.2 (List.mem_map.mpr ⟨p, hp, rfl⟩)
      omega
    · intro hall
      refine ⟨rfl, ?_⟩
      intro ns hns
      obtain ⟨p, hp, rfl⟩ := List.mem_map.mp hns
      rw [hall p hp]
      omega
  · intro r hr
    obtain ⟨hmem, -, hlt, hmin, -⟩ := spec.2 r hr
    refine ⟨?_, hlt, hmin⟩
    rcases hmem with hm | hm
    · exact hm
    · cases hm

/-- Witness for the selection theorem at the worked example of the spec:
namespaces A(3), B(1), C(10) with maximum capacity 10. -/
theorem getNamespaceWithMaxCapacity_spec_witness :
    (Cache.countsInRange ⟨[("A", ⟨"A", 3⟩), ("B", ⟨"B", 1⟩), ("C", ⟨"C", 10⟩)], []⟩) ∧
    ((Cache.getNamespaceWithMaxCapacity
        ⟨[("A", ⟨"A", 3⟩), ("B", ⟨"B", 1⟩), ("C", ⟨"C", 10⟩)], []⟩ = none ↔
      ∀ p ∈ [("A", (⟨"A", 3⟩ : Namespace)), ("B", ⟨"B", 1⟩), ("C", ⟨"C", 10⟩)],
        p.2.count = maxEventHubsPerNamespace) ∧
     (∀ r, Cache.getNamespaceWithMaxCapacity
        ⟨[("A", ⟨"A", 3⟩), ("B", ⟨"B", 1⟩), ("C", ⟨"C", 10⟩)], []⟩ = some r →
       r ∈ [("A", (⟨"A", 3⟩ : Namespace)), ("B", ⟨"B", 1⟩), ("C", ⟨"C", 10⟩)].map Prod.snd ∧
       r.count < maxEventHubsPerNamespace ∧
       ∀ ns ∈ [("A", (⟨"A", 3⟩ : Namespace)), ("B", ⟨"B", 1⟩), ("C", ⟨"C", 10⟩)].map Prod.snd,
         ns.count < maxEventHubsPerNamespace → r.count ≤ ns.count)) :=
  ⟨by decide, getNamespaceWithMaxCapacity_spec
    ⟨[("A", ⟨"A", 3⟩), ("B", ⟨"B", 1⟩), ("C", ⟨"C", 10⟩)], []⟩ (by decide)⟩

/-- Lookup success exhibits a member of the association list. -/
theorem lookupNs_mem {n : String} {m : List (String × Namespace)} {ns : Namespace}
    (h : lookupNs n m = some ns) : (n, ns) ∈ m := by
  induction m with
  | nil => simp [lookupNs] at h
  | cons p rest ih =>
    obtain ⟨k, v⟩ := p
    by_cases hk : k = n
    · subst hk
      simp [lookupNs] at h
      subst h
      exact List.mem_cons_self _ _
    · simp [lookupNs, hk] at h
      exact List.mem_cons_of_mem _ (ih h)

/-- Every entry of a count bump is either an untouched entry of the input
or the bumped first entry of the bumped name. -/
theorem bumpCount_mem {n : String} {d : Int} {m : List (String × Namespace)}
    {p : String × Namespace} (h : p ∈ bumpCount n d m) :
    p ∈ m ∨ ∃ ns, lookupNs n m = some ns ∧ p = (n, { ns with count := ns.count + d }) := by
  induction m with
  | nil => simp [bumpCount] at h
  | cons q rest ih =>
    obtain ⟨k, v⟩ := q
    by_cases hk : k = n
    · subst hk
      simp only [bumpCount, if_pos rfl] at h
      rcases List.mem_cons.mp h with rfl | hmem
      · exact Or.inr ⟨v, by simp [lookupNs], rfl⟩
      · exact Or.inl (List.mem_cons_of_mem _ hmem)
    · simp only [bumpCount, if_neg hk] at h
      rcases List.mem_cons.mp h with rfl | hmem
      · exact Or.inl (List.mem_cons_self _ _)
      · rcases ih hmem with hm | ⟨ns, hl, rfl⟩
        · exact Or.inl (List.mem_cons_of_mem _ hm)
        · exact Or.inr ⟨ns, by simp [lookupNs, hk, hl], rfl⟩

/-- AddEventHub keeps every namespace count between zero and the maximum
capacity. -/
theorem addEventHub_countsInRange (c : Cache) (hub : String) (ns : Option String)
    (h : c.countsInRange) : (c.addEventHub hub ns).countsInRange := by
  unfold Cache.addEventHub
  split
  · exact h
  · rename_i n
    split
    · exact h
    · rename_i nsObj heq
      split
      · rename_i hlt
        intro p hp
        simp only at hp
        rcases bumpCount_mem hp with hm | ⟨ns2, hl2, rfl⟩
        · exact h p hm
        · rw [heq] at hl2
          cases hl2
          have hmem := h (n, nsObj) (lookupNs_mem heq)
          simp only at hmem ⊢
          omega
      · exact h

/-- RemoveEventHub keeps every namespace count between zero and the
maximum capacity. -/
theorem removeEventHub_countsInRange (c : Cache) (hub : String)
    (h : c.countsInRange) : (c.removeEventHub hub).countsInRange := by
  intro p hp
  unfold Cache.removeEventHub at hp
  simp only at hp
  split at hp
  · exact h p hp
  · rename_i n heq
    split at hp
    · exact h p hp
    · rename_i nsObj heq2
      split at hp
      · rcases bumpCount_mem hp with hm | ⟨ns2, hl2, rfl⟩
        · exact h p hm
        · rw [heq2] at hl2
          cases hl2
          have hmem := h (n, nsObj) (lookupNs_mem heq2)
          simp only at hmem ⊢
          omega
      · exact h p hp

/-- C5: along any sequence of AddEventHub / RemoveEventHub operations
starting from a cache whose namespace counts all lie between zero and the
maximum capacity, every namespace count stays between zero and the
maximum capacity (in particular it never exceeds the maximum and never
becomes negative). -/
theorem applyOps_countsInRange (c : Cache) (ops : List CacheOp) (h : c.countsInRange) :
    (applyOps c ops).countsInRange := by
  induction ops generalizing c with
  | nil => exact h
  | cons op rest ih =>
    cases op with
    | add hub ns => exact ih _ (addEventHub_countsInRange c hub ns h)
    | remove hub => exact ih _ (removeEventHub_countsInRange c hub h)

/-- Witness for the range preservation theorem on a concrete cache and a
concrete operation sequence. -/
theorem applyOps_countsInRange_witness :
    (Cache.countsInRange ⟨[("A", ⟨"A", 9⟩)], []⟩) ∧
    (applyOps ⟨[("A", ⟨"A", 9⟩)], []⟩
      [CacheOp.add "t" (some "A"), CacheOp.add "u" (some "A"),
       CacheOp.remove "t", CacheOp.remove "t"]).countsInRange :=
  ⟨by decide, applyOps_countsInRange ⟨[("A", ⟨"A", 9⟩)], []⟩
    [CacheOp.add "t" (some "A"), CacheOp.add "u" (some "A"),
     CacheOp.remove "t", CacheOp.remove "t"] (by decide)⟩

/-- Deleting a key from the EventHub map makes lookups of that key fail. -/
theorem lookupHub_filter_self (hub : String) (e : List (String × String)) :
    lookupHub hub (e.filter (fun p => p.1 ≠ hub)) = none := by
  induction e with
  | nil => rfl
  | cons p rest ih =>
    obtain ⟨k, v⟩ := p
    by_cases hk : k = hub
    · simpa [List.filter, hk] using ih
    · simpa [List.filter, hk, lookupHub] using ih

/-- Deleting an absent key from the EventHub map leaves it unchanged. -/
theorem filter_ne_eq_self {hub : String} {e : List (String × String)}
    (h : lookupHub hub e = none) : e.filter (fun p => p.1 ≠ hub) = e := by
  induction e with
  | nil => rfl
  | cons p rest ih =>
    obtain ⟨k, v⟩ := p
    by_cases hk : k = hub
    · rw [lookupHub, if_pos hk] at h
      cases h
    · rw [lookupHub, if_neg hk] at h
      have hcond : ((fun p => decide (p.1 ≠ hub)) ((k, v))) = true := by simp [hk]
      rw [List.filter_cons, if_pos hcond, ih h]

/-- RemoveEventHub of an EventHub absent from the cache leaves the cache
unchanged. -/
theorem removeEventHub_not_mapped (c : Cache) (hub : String)
    (h : lookupHub hub c.eventhubMap = none) : c.removeEventHub hub = c := by
  unfold Cache.removeEventHub
  simp only [h, filter_ne_eq_self h]

/-- C9: RemoveEventHub is idempotent: applying it twice equals applying it
once; removing a never-mapped EventHub leaves the cache unchanged; the
EventHub entry is always gone afterwards; and the owning namespace count
is decremented exactly when the EventHub was mapped to a present namespace
with a positive count. -/
theorem removeEventHub_spec (c : Cache) (hub : String) :
    ((c.removeEventHub hub).removeEventHub hub = c.removeEventHub hub) ∧
    (lookupHub hub c.eventhubMap = none → c.removeEventHub hub = c) ∧
    (lookupHub hub (c.removeEventHub hub).eventhubMap = none) ∧
    (∀ n nsObj, lookupHub hub c.eventhubMap = some n →
      lookupNs n c.namespaceMap = some nsObj → 0 < nsObj.count →
      (c.removeEventHub hub).namespaceMap = bumpCount n (-1) c.namespaceMap) ∧
    (∀ n nsObj, lookupHub hub c.eventhubMap = some n →
      lookupNs n c.namespaceMap = some nsObj → nsObj.count ≤ 0 →
      (c.removeEventHub hub).namespaceMap = c.namespaceMap) := by
  have hdel : lookupHub hub (c.removeEventHub hub).eventhubMap = none := by
    show lookupHub hub (c.eventhubMap.filter (fun p => p.1 ≠ hub)) = none
    exact lookupHub_filter_self hub c.eventhubMap
  refine ⟨removeEventHub_not_mapped _ hub hdel, removeEventHub_not_mapped c hub, hdel, ?_, ?_⟩
  · intro n nsObj h1 h2 h3
    unfold Cache.removeEventHub
    simp only [h1, h2, if_pos h3]
  · intro n nsObj h1 h2 h3
    have h4 : ¬ nsObj.count > 0 := by omega
    unfold Cache.removeEventHub
    simp only [h1, h2, if_neg h4]

/-- Witness for the RemoveEventHub theorem on a concrete cache. -/
theorem removeEventHub_spec_witness :
    ((Cache.removeEventHub (Cache.removeEventHub ⟨[("A", ⟨"A", 1⟩)], [("t", "A")]⟩ "t") "t"
        = Cache.removeEventHub ⟨[("A", ⟨"A", 1⟩)], [("t", "A")]⟩ "t") ∧
     (lookupHub "t" ([("t", "A")] : List (String × String)) = none →
        Cache.removeEventHub ⟨[("A", ⟨"A", 1⟩)], [("t", "A")]⟩ "t"
          = ⟨[("A", ⟨"A", 1⟩)], [("t", "A")]⟩) ∧
     (lookupHub "t" (Cache.removeEventHub ⟨[("A", ⟨"A", 1⟩)], [("t", "A")]⟩ "t").eventhubMap
        = none) ∧
     (∀ n nsObj, lookupHub "t" ([("t", "A")] : List (String × String)) = some n →
        lookupNs n ([("A", ⟨"A", 1⟩)] : List (String × Namespace)) = some nsObj →
        0 < nsObj.count →
        (Cache.removeEventHub ⟨[("A", ⟨"A", 1⟩)], [("t", "A")]⟩ "t").namespaceMap
          = bumpCount n (-1) [("A", ⟨"A", 1⟩)]) ∧
     (∀ n nsObj, lookupHub "t" ([("t", "A")] : List (String × String)) = some n →
        lookupNs n ([("A", ⟨"A", 1⟩)] : List (String × Namespace)) = some nsObj →
        nsObj.count ≤ 0 →
        (Cache.removeEventHub ⟨[("A", ⟨"A", 1⟩)], [("t", "A")]⟩ "t").namespaceMap
          = [("A", ⟨"A", 1⟩)])) :=
  removeEventHub_spec ⟨[("A", ⟨"A", 1⟩)], [("t", "A")]⟩ "t"

/-- EventHub lookup fails exactly for keys absent from the map. -/
theorem lookupHub_eq_none_iff {h : String} {e : List (String × String)} :
    lookupHub h e = none ↔ h ∉ e.map Prod.fst := by
  induction e with
  | nil => simp [lookupHub]
  | cons p rest ih =>
    obtain ⟨k, v⟩ := p
    by_cases hk : k = h
    · subst hk
      simp [lookupHub]
    · rw [lookupHub, if_neg hk, ih, List.map_cons]
      constructor
      · intro hn hmem
        rcases List.mem_cons.mp hmem with h1 | h2
        · exact hk h1.symm
        · exact hn h2
      · intro hn h2
        exact hn (List.mem_cons_of_mem _ h2)

/-- Namespace lookup fails exactly for keys absent from the map. -/
theorem lookupNs_eq_none_iff {n : String} {m : List (String × Namespace)} :
    lookupNs n m = none ↔ n ∉ m.map Prod.fst := by
  induction m with
  | nil => simp [lookupNs]
  | cons p rest ih =>
    obtain ⟨k, v⟩ := p
    by_cases hk : k = n
    · subst hk
      simp [lookupNs]
    · rw [lookupNs, if_neg hk, ih, List.map_cons]
      constructor
      · intro hn hmem
        rcases List.mem_cons.mp hmem with h1 | h2
        · exact hk h1.symm
        · exact hn h2
      · intro hn h2
        exact hn (List.mem_cons_of_mem _ h2)

/-- EventHub lookup success exhibits a member of the map. -/
theorem lookupHub_mem {h : String} {e : List (String × String)} {n : String}
    (hl : lookupHub h e = some n) : (h, n) ∈ e := by
  induction e with
  | nil => simp [lookupHub] at hl
  | cons p rest ih =>
    obtain ⟨k, v⟩ := p
    by_cases hk : k = h
    · subst hk
      rw [lookupHub, if_pos rfl] at hl
      cases hl
      exact List.mem_cons_self _ _
    · rw [lookupHub, if_neg hk] at hl
      exact List.mem_cons_of_mem _ (ih hl)

/-- Bumping a count does not change the key list of the namespace map. -/
theorem bumpCount_keys (n : String) (d : Int) (m : List (String × Namespace)) :
    (bumpCount n d m).map Prod.fst = m.map Prod.fst := by
  induction m with
  | nil => rfl
  | cons p rest ih =>
    obtain ⟨k, v⟩ := p
    by_cases hk : k = n
    · simp [bumpCount, hk]
    · simp [bumpCount, hk, ih]

/-- Lookup after a count bump: the bumped name resolves to the bumped
namespace, every other name resolves as before. -/
theorem lookupNs_bumpCount (k n : String) (d : Int) (m : List (String × Namespace)) :
    lookupNs k (bumpCount n d m) =
      if k = n then (lookupNs n m).map (fun ns => { ns with count := ns.count + d })
      else lookupNs k m := by
  induction m with
  | nil => by_cases hk : k = n <;> simp [bumpCount, lookupNs, hk]
  | cons p rest ih =>
    obtain ⟨k2, v⟩ := p
    by_cases h2 : k2 = n
    · subst h2
      by_cases hk : k2 = k
      · subst hk
        simp [bumpCount, lookupNs]
      · rw [bumpCount, if_pos rfl, lookupNs, if_neg hk,
          if_neg (fun hc => hk hc.symm), lookupNs, if_neg hk]
    · by_cases hk : k2 = k
      · subst hk
        rw [bumpCount, if_neg h2, lookupNs, if_pos rfl,
          if_neg h2, lookupNs, if_pos rfl]
      · rw [bumpCount, if_neg h2, lookupNs, if_neg hk, ih]
        by_cases hkn : k = n
        · subst hkn
          rw [if_pos rfl, if_pos rfl, lookupNs, if_neg (fun hc => h2 hc)]
        · rw [if_neg hkn, if_neg hkn, lookupNs, if_neg hk]

/-- Under unique keys, every entry of a count bump is either an untouched
entry with a different key, or the bumped entry of the bumped name. -/
theorem bumpCount_mem_nodup {n : String} {d : Int} {m : List (String × Namespace)}
    (hnd : (m.map Prod.fst).Nodup) {p : String × Namespace} (h : p ∈ bumpCount n d m) :
    (p ∈ m ∧ p.1 ≠ n) ∨
    (∃ ns, lookupNs n m = some ns ∧ p = (n, { ns with count := ns.count + d })) := by
  induction m with
  | nil => simp [bumpCount] at h
  | cons q rest ih =>
    obtain ⟨k, v⟩ := q
    rw [List.map_cons, List.nodup_cons] at hnd
    by_cases hk : k = n
    · subst hk
      rw [bumpCount, if_pos rfl] at h
      rcases List.mem_cons.mp h with rfl | hmem
      · exact Or.inr ⟨v, by rw [lookupNs, if_pos rfl], rfl⟩
      · refine Or.inl ⟨List.mem_cons_of_mem _ hmem, ?_⟩
        intro hpk
        exact hnd.1 (hpk ▸ List.mem_map.mpr ⟨p, hmem, rfl⟩)
    · rw [bumpCount, if_neg hk] at h
      rcases List.mem_cons.mp h with rfl | hmem
      · exact Or.inl ⟨List.mem_cons_self _ _, hk⟩
      · rcases ih hnd.2 hmem with ⟨hm, hne⟩ | ⟨ns, hl, rfl⟩
        · exact Or.inl ⟨List.mem_cons_of_mem _ hm, hne⟩
        · exact Or.inr ⟨ns, by rw [lookupNs, if_neg hk, hl], rfl⟩

/-- Counting the entries carrying a given value, before and after the
deletion of the unique entry of a known key: the deleted entry accounts
for one occurrence of its own value and nothing else. -/
theorem filter_value_delete {hub n : String} {e : List (String × String)}
    (hnd : (e.map Prod.fst).Nodup) (hlk : lookupHub hub e = some n) (v : String) :
    (e.filter (fun q => q.2 = v)).length =
      ((e.filter (fun q => q.1 ≠ hub)).filter (fun q => q.2 = v)).length +
        (if n = v then 1 else 0) := by
  induction e with
  | nil => simp [lookupHub] at hlk
  | cons p rest ih =>
    obtain ⟨k, w⟩ := p
    rw [List.map_cons, List.nodup_cons] at hnd
    by_cases hk : k = hub
    · subst hk
      rw [lookupHub, if_pos rfl] at hlk
      cases hlk
      have hrest : List.filter (fun q => q.1 ≠ k) rest = rest :=
        filter_ne_eq_self (lookupHub_eq_none_iff.mpr hnd.1)
      have h1 : List.filter (fun q => q.1 ≠ k) ((k, n) :: rest) = rest := by
        rw [List.filter_cons, if_neg (by simp), hrest]
      rw [h1]
      by_cases hv : n = v
      · subst hv
        rw [List.filter_cons, if_pos (by simp), if_pos rfl]
        simp
      · rw [List.filter_cons, if_neg (by simp [hv]), if_neg hv]
        simp
    · rw [lookupHub, if_neg hk] at hlk
      have hstep := ih hnd.2 hlk
      by_cases hnv : n = v <;> by_cases hv : w = v <;>
        simp [List.filter_cons, hk, hv, hnv] at hstep ⊢ <;> omega

/-- AddEventHub preserves the uniqueness of the map keys. -/
theorem addEventHub_wf (c : Cache) (hub : String) (ns : Option String) (h : c.wf) :
    (c.addEventHub hub ns).wf := by
  unfold Cache.addEventHub
  split
  · exact h
  · rename_i n
    split
    · exact h
    · rename_i nsObj heq
      split
      · refine ⟨?_, ?_⟩
        · show ((bumpCount n 1 c.namespaceMap).map Prod.fst).Nodup
          rw [bumpCount_keys]
          exact h.1
        · show (((hub, n) :: c.eventhubMap.filter (fun p => p.1 ≠ hub)).map Prod.fst).Nodup
          rw [List.map_cons, List.nodup_cons]
          refine ⟨?_, ?_⟩
          · rw [← lookupHub_eq_none_iff]
            exact lookupHub_filter_self hub c.eventhubMap
          · exact ((List.filter_sublist _).map Prod.fst).nodup h.2
      · exact h

/-- RemoveEventHub preserves the uniqueness of the map keys. -/
theorem removeEventHub_wf (c : Cache) (hub : String) (h : c.wf) :
    (c.removeEventHub hub).wf := by
  refine ⟨?_, ?_⟩
  · show (((c.removeEventHub hub).namespaceMap).map Prod.fst).Nodup
    unfold Cache.removeEventHub
    simp only
    split
    · exact h.1
    · split
      · exact h.1
      · split
        · rw [bumpCount_keys]
          exact h.1
        · exact h.1
  · show ((c.eventhubMap.filter (fun p => p.1 ≠ hub)).map Prod.fst).Nodup
    exact ((List.filter_sublist _).map Prod.fst).nodup h.2

/-- AddEventHub of an EventHub not currently mapped preserves the cache
consistency invariant. -/
theorem addEventHub_invariant (c : Cache) (hub : String) (ns : Option String)
    (hwf : c.wf) (hinv : c.invariant) (hfresh : lookupHub hub c.eventhubMap = none) :
    (c.addEventHub hub ns).invariant := by
  unfold Cache.addEventHub
  split
  · exact hinv
  · rename_i n
    split
    · exact hinv
    · rename_i nsObj heq
      split
      · rename_i hlt
        have hins : insertHub hub n c.eventhubMap = (hub, n) :: c.eventhubMap := by
          rw [insertHub, filter_ne_eq_self hfresh]
        refine ⟨?_, ?_⟩
        · intro p hp
          simp only [hins] at hp
          show (lookupNs p.2 (bumpCount n 1 c.namespaceMap)).isSome
          rw [lookupNs_bumpCount]
          rcases List.mem_cons.mp hp with rfl | hmem
          · rw [if_pos rfl, heq]
            rfl
          · by_cases hpn : p.2 = n
            · rw [if_pos hpn, heq]
              rfl
            · rw [if_neg hpn]
              exact hinv.1 p hmem
        · intro p hp
          simp only [hins] at hp ⊢
          rcases bumpCount_mem_nodup hwf.1 hp with ⟨hm, hne⟩ | ⟨ns2, hl2, rfl⟩
          · have hold := hinv.2 p hm
            rw [List.filter_cons, if_neg (by simp; exact fun hc => hne hc.symm)]
            exact hold
          · rw [heq] at hl2
            cases hl2
            have hold := hinv.2 (n, nsObj) (lookupNs_mem heq)
            rw [List.filter_cons, if_pos (by simp)]
            simp only [List.length_cons] at hold ⊢
            push_cast
            omega
      · exact hinv

/-- RemoveEventHub preserves the cache consistency invariant. -/
theorem removeEventHub_invariant (c : Cache) (hub : String)
    (hwf : c.wf) (hinv : c.invariant) : (c.removeEventHub hub).invariant := by
  cases hlk : lookupHub hub c.eventhubMap with
  | none =>
    rw [removeEventHub_not_mapped c hub hlk]
    exact hinv
  | some n =>
    have hmem : (hub, n) ∈ c.eventhubMap := lookupHub_mem hlk
    have hsome := hinv.1 (hub, n) hmem
    simp only at hsome
    cases hl : lookupNs n c.namespaceMap with
    | none =>
      rw [hl] at hsome
      cases hsome
    | some nsObj =>
      have hcount := hinv.2 (n, nsObj) (lookupNs_mem hl)
      simp only at hcount
      have hlen : 0 < (c.eventhubMap.filter (fun q => q.2 = n)).length :=
        List.length_pos.mpr (List.ne_nil_of_mem (List.mem_filter.mpr ⟨hmem, by simp⟩))
      have hposc : nsObj.count > 0 := by
        rw [hcount]
        exact_mod_cast hlen
      unfold Cache.removeEventHub
      simp only [hlk, hl, if_pos hposc]
      refine ⟨?_, ?_⟩
      · intro p hp
        simp only at hp
        have hpe : p ∈ c.eventhubMap := List.mem_of_mem_filter hp
        show (lookupNs p.2 (bumpCount n (-1) c.namespaceMap)).isSome
        rw [lookupNs_bumpCount]
        by_cases hpn : p.2 = n
        · rw [if_pos hpn, hl]
          rfl
        · rw [if_neg hpn]
          exact hinv.1 p hpe
      · intro p hp
        simp only at hp ⊢
        rcases bumpCount_mem_nodup hwf.1 hp with ⟨hm, hne⟩ | ⟨ns2, hl2, rfl⟩
        · have hold := hinv.2 p hm
          have hdel := filter_value_delete hwf.2 hlk p.1
          rw [if_neg (fun hc => hne hc.symm)] at hdel
          simp only at hold
          omega
        · rw [hl] at hl2
          cases hl2
          have hdel := filter_value_delete hwf.2 hlk n
          rw [if_pos rfl] at hdel
          simp only
          omega

/-- C4 amended: the consistency invariant (and key uniqueness) is
preserved by every sequence of AddEventHub / RemoveEventHub operations in
which each AddEventHub is for an EventHub name not present in the
EventHub map at the time of the call.  (Without the freshness condition
the invariant fails, see the counterexample.) -/
theorem applyOps_invariant (c : Cache) (ops : List CacheOp)
    (hwf : c.wf) (hinv : c.invariant) (hfresh : freshAddsB c ops = true) :
    (applyOps c ops).invariant ∧ (applyOps c ops).wf := by
  induction ops generalizing c with
  | nil => exact ⟨hinv, hwf⟩
  | cons op rest ih =>
    cases op with
    | add hub ns =>
      simp only [freshAddsB, Bool.and_eq_true] at hfresh
      have hf : lookupHub hub c.eventhubMap = none := by
        have h1 := hfresh.1
        simpa [Option.isNone_iff_eq_none] using h1
      exact ih _ (addEventHub_wf c hub ns hwf)
        (addEventHub_invariant c hub ns hwf hinv hf) hfresh.2
    | remove hub =>
      simp only [freshAddsB, Bool.and_eq_true] at hfresh
      exact ih _ (removeEventHub_wf c hub hwf)
        (removeEventHub_invariant c hub hwf hinv) hfresh.2

/-- Witness for the amended invariant preservation theorem on a concrete
cache and operation sequence. -/
theorem applyOps_invariant_witness :
    (Cache.wf ⟨[("A", ⟨"A", 0⟩)], []⟩) ∧
    (Cache.invariant ⟨[("A", ⟨"A", 0⟩)], []⟩) ∧
    (freshAddsB ⟨[("A", ⟨"A", 0⟩)], []⟩
      [CacheOp.add "t" (some "A"), CacheOp.remove "t"] = true) ∧
    ((applyOps ⟨[("A", ⟨"A", 0⟩)], []⟩
      [CacheOp.add "t" (some "A"), CacheOp.remove "t"]).invariant ∧
     (applyOps ⟨[("A", ⟨"A", 0⟩)], []⟩
      [CacheOp.add "t" (some "A"), CacheOp.remove "t"]).wf) :=
  ⟨by decide, by decide, by decide,
    applyOps_invariant ⟨[("A", ⟨"A", 0⟩)], []⟩
      [CacheOp.add "t" (some "A"), CacheOp.remove "t"]
      (by decide) (by decide) (by decide)⟩

/-- C4 counterexample: from a well-formed state satisfying the
invariant, a single AddEventHub call for an EventHub name already present
in the EventHub map yields a state violating the invariant (the old
owning namespace keeps its count while no entry points at it any
longer). -/
theorem addEventHub_existing_breaks_invariant :
    Cache.wf ⟨[("A", ⟨"A", 1⟩)], [("t", "A")]⟩ ∧
    Cache.invariant ⟨[("A", ⟨"A", 1⟩)], [("t", "A")]⟩ ∧
    ¬ Cache.invariant (applyOps ⟨[("A", ⟨"A", 1⟩)], [("t", "A")]⟩
        [CacheOp.add "t" (some "A")]) := by decide

/-- C1 counterexample: Update on an empty cache, with a snapshot whose
first credential record is valid (and lists one EventHub) and whose
second record fails validation, returns the validation error and yet
leaves the first record applied: the cache after the failing call differs
from the cache before it. -/
theorem update_error_modifies_cache :
    ((Cache.update
        (Except.ok [⟨"secretA", "b", "u", "p", "A"⟩, ⟨"secretB", "", "", "", ""⟩])
        (fun _ => Except.ok ["h1"]) ⟨[], []⟩).1 = some "invalid Kafka Secret found") ∧
    ((Cache.update
        (Except.ok [⟨"secretA", "b", "u", "p", "A"⟩, ⟨"secretB", "", "", "", ""⟩])
        (fun _ => Except.ok ["h1"]) ⟨[], []⟩).2 ≠ ⟨[], []⟩) := by decide

/-- C1 amended: only a failure of the credential fetch itself is
guaranteed to leave the cache exactly unchanged (the error is returned
and the state is returned untouched); a validation or listing failure
inside the secret loop aborts with that error but can leave records
processed before the failure applied, as the counterexample shows. -/
theorem update_fetch_error_unchanged (e : String)
    (listings : String → Except String (List String)) (c : Cache) :
    Cache.update (Except.error e) listings c = (some e, c) := rfl

/-- C3 counterexample: two Subscriptions built from the same subscriber
identifier with different destination URIs share the consumer group id
but are different map keys, and a failure entry stored under the first is
not found when looked up via the second. -/
theorem subscription_uri_changes_key :
    ((mkSubscription "u1" "http://a").groupId = (mkSubscription "u1" "http://b").groupId) ∧
    (mkSubscription "u1" "http://a" ≠ mkSubscription "u1" "http://b") ∧
    (findFailure (mkSubscription "u1" "http://b")
      [(mkSubscription "u1" "http://a", "subscribe failed")] = none) := by decide

/-- C3 amended: the consumer group id is a pure function of the
subscriber identifier (format kafka.<uid>), but two Subscriptions built
from the same identifier compare equal as map keys exactly when their
destination URIs are also equal; with different URIs the lookup of one
via the other misses. -/
theorem mkSubscription_key_spec (uid uriA uriB : String) :
    ((mkSubscription uid uriA).groupId = (mkSubscription uid uriB).groupId) ∧
    (mkSubscription uid uriA = mkSubscription uid uriB ↔ uriA = uriB) := by
  refine ⟨rfl, ?_, ?_⟩
  · intro h
    exact congrArg Subscription.uri h
  · intro h
    rw [h]

/-- C6 counterexample: reconcile of a channel whose declared subscriber
list is present but empty does invoke the Dispatcher. -/
theorem reconcile_empty_list_calls_dispatcher :
    (reconcile (fun _ => []) (some [])).dispatcherCalled = true := by decide

/-- C6 amended: a channel with an absent (nil) subscriber list reconciles
successfully with no Dispatcher call; a present but empty subscriber list
still invokes the Dispatcher with the empty desired set, succeeding
exactly when the Dispatcher reports no failure. -/
theorem reconcile_no_subscribers_spec
    (f : List Subscription → List (Subscription × String)) :
    (reconcile f none = { err := none, dispatcherCalled := false, status := none }) ∧
    ((reconcile f (some [])).dispatcherCalled = true) ∧
    ((reconcile f (some [])).err = none ↔ f [] = []) := by
  refine ⟨rfl, rfl, ?_⟩
  show (if (f []).length > 0 then some "Some kafka subscriptions failed to subscribe"
        else none) = none ↔ f [] = []
  by_cases h : (f []).length > 0
  · rw [if_pos h]
    constructor
    · intro hc
      cases hc
    · intro hc
      rw [hc] at h
      simp at h
  · rw [if_neg h]
    simp only [Nat.not_lt, Nat.le_zero] at h
    rw [List.length_eq_zero] at h
    exact iff_of_true rfl h

/-- C7: updateStatus never writes back when the stored status
deep-equals the freshly computed status, writes back exactly when they
differ, and does not write when the stored resource cannot be fetched. -/
theorem updateStatus_write_iff (st desired : KafkaChannelStatus) (writeErr : Option String) :
    ((updateStatus (some st) writeErr desired).wroteBack = true ↔ st ≠ desired) ∧
    (updateStatus none writeErr desired).wroteBack = false := by
  constructor
  · by_cases h : st = desired <;> simp [updateStatus, h]
  · rfl

/-- C8: the computed subscribable status has one entry per declared
subscriber, in order; an entry carries the subscriber's uid and
generation, and it is ready with an empty message when the subscriber's
Subscription is absent from the failure mapping, not ready with the error
text when present. -/
theorem createSubscribableStatus_spec (subscribers : List Subscriber)
    (failed : List (Subscription × String)) :
    ((createSubscribableStatus subscribers failed).subscribers.length = subscribers.length) ∧
    (∀ i sub, subscribers.get? i = some sub →
      ∃ st, (createSubscribableStatus subscribers failed).subscribers.get? i = some st ∧
        st.uid = sub.uid ∧ st.observedGeneration = sub.generation ∧
        (findFailure (mkSubscription sub.uid sub.subscriberURI) failed = none →
          st.ready = true ∧ st.message = "") ∧
        (∀ e, findFailure (mkSubscription sub.uid sub.subscriberURI) failed = some e →
          st.ready = false ∧ st.message = e)) := by
  constructor
  · simp [createSubscribableStatus]
  · intro i sub hsub
    have hsub2 : subscribers[i]? = some sub := by
      simpa [List.get?_eq_getElem?] using hsub
    cases hf : findFailure (mkSubscription sub.uid sub.subscriberURI) failed with
    | none =>
      refine ⟨⟨sub.uid, sub.generation, true, ""⟩, ?_, rfl, rfl, fun _ => ⟨rfl, rfl⟩, ?_⟩
      · simp [createSubscribableStatus, List.get?_eq_getElem?, List.getElem?_map, hsub2, hf]
      · intro e he
        simp at he
    | some e0 =>
      refine ⟨⟨sub.uid, sub.generation, false, e0⟩, ?_, rfl, rfl, ?_, ?_⟩
      · simp [createSubscribableStatus, List.get?_eq_getElem?, List.getElem?_map, hsub2, hf]
      · intro hn
        simp at hn
      · intro e he
        injection he with he2
        subst he2
        exact ⟨rfl, rfl⟩

/-- Witness for the subscribable status theorem at a concrete subscriber
list and failure mapping. -/
theorem createSubscribableStatus_spec_witness :
    ((createSubscribableStatus [⟨"u1", "http://a", 1⟩, ⟨"u2", "http://b", 2⟩]
        [(mkSubscription "u2" "http://b", "boom")]).subscribers.length = 2) ∧
    (∀ i sub, List.get?
        ([⟨"u1", "http://a", 1⟩, ⟨"u2", "http://b", 2⟩] : List Subscriber) i = some sub →
      ∃ st, (createSubscribableStatus [⟨"u1", "http://a", 1⟩, ⟨"u2", "http://b", 2⟩]
          [(mkSubscription "u2" "http://b", "boom")]).subscribers.get? i = some st ∧
        st.uid = sub.uid ∧ st.observedGeneration = sub.generation ∧
        (findFailure (mkSubscription sub.uid sub.subscriberURI)
            [(mkSubscription "u2" "http://b", "boom")] = none →
          st.ready = true ∧ st.message = "") ∧
        (∀ e, findFailure (mkSubscription sub.uid sub.subscriberURI)
            [(mkSubscription "u2" "http://b", "boom")] = some e →
          st.ready = false ∧ st.message = e)) :=
  createSubscribableStatus_spec [⟨"u1", "http://a", 1⟩, ⟨"u2", "http://b", 2⟩]
    [(mkSubscription "u2" "http://b", "boom")]

/-- C10: a reconcile key that does not parse into a namespace and name is
dropped with no error, no resource lookup, no Dispatcher call and no
status write. -/
theorem reconcileTop_malformed_key (channelKey key : String)
    (getChannel : String → String → GetResult)
    (updateSubscriptions : List Subscription → List (Subscription × String))
    (writeErr : Option String) (e : String)
    (h : splitMetaNamespaceKey key = Except.error e) :
    reconcileTop channelKey getChannel updateSubscriptions writeErr key =
      { err := none, lookedUp := false, dispatcherCalled := false, statusWritten := false } := by
  unfold reconcileTop
  rw [h]

/-- Witness for the malformed key theorem at the concrete key a/b/c. -/
theorem reconcileTop_malformed_key_witness :
    (splitMetaNamespaceKey "a/b/c" = Except.error "unexpected key format") ∧
    (reconcileTop "chan" (fun _ _ => GetResult.notFound) (fun _ => []) none "a/b/c" =
      { err := none, lookedUp := false, dispatcherCalled := false, statusWritten := false }) :=
  ⟨by rfl, reconcileTop_malformed_key "chan" "a/b/c" (fun _ _ => GetResult.notFound)
    (fun _ => []) none "unexpected key format" (by rfl)⟩

end KnativeKafka
